import Mathlib

/-!
Verification development for `aioblkcopy`, an asynchronous dual-queue block
copying tool (src/aioblkcopy.c, src/aioblkcopy.h).

The scheduler loop of `main` is embedded shallowly: each request slot
(`struct blkqueitem`) becomes a `Slot`, the scalar loop variables
(`irqnum`, `orqnum`, `ioff`, `ooff`, `iqsize`, `oqsize`, `eof`, ...)
become a `Scal` record, and each pass of the main `for(;;)` loop becomes a
structural traversal of the slot lists.  The results of the `aio_error` /
`aio_return` completion probes are supplied by an oracle `env : Nat → Probe`
consumed in program order (one entry per `aio_error` call); per the POSIX aio
contract a read completion never reports more bytes than were requested.
Buffers returned by `posix_memalign` are modelled as freshly numbered ids;
a `CUSTOMERROR` (which calls `exit(EXIT_FAILURE)`) is modelled by the
`aborted` flag that freezes the remainder of the run.
-/

namespace Aioblkcopy

/-- `QUEITEM_FREE` / `QUEITEM_READY` / `QUEITEM_INPROGRESS` (aioblkcopy.h). -/
inductive Status where
  | free
  | ready
  | inprogress
deriving DecidableEq, Repr

/-- One `struct blkqueitem` (aioblkcopy.h lines 51-69).  `buffer` is the
slot's own `char *buffer` pointer and `aioBuf` is `aiodata->aio_buf`; both
are buffer ids (`none` = `NULL`).  The `fd` field is omitted: it is constant
for a slot's lifetime and no claim mentions it. -/
structure Slot where
  rqnum : Nat
  status : Status
  buffer : Option Nat
  aioBuf : Option Nat
  fdoffset : Nat
  readyb : Nat
deriving DecidableEq, Repr

/-- The slot contents produced by `memset(..., 0, ...)` at startup. -/
def slot0 : Slot :=
  { rqnum := 0, status := .free, buffer := none, aioBuf := none,
    fdoffset := 0, readyb := 0 }

/-- Outcome of one `aio_error` probe (plus `aio_return` when complete):
`inprog` = `EINPROGRESS`, `done n` = completed with `n` bytes transferred,
`canceled` = `ECANCELED`, `efbig` = `EFBIG`, `err` = any other error code. -/
inductive Probe where
  | inprog
  | done (n : Nat)
  | canceled
  | efbig
  | err
deriving DecidableEq, Repr

/-- The configuration the scheduler consumes: block size, the two queue
depths `imaxqsize` / `omaxqsize`, and the two seekability flags. -/
structure Config where
  blksize : Nat
  imaxqsize : Nat
  omaxqsize : Nat
  iseekable : Bool
  oseekable : Bool
deriving DecidableEq, Repr

/-- One write submitted by `aio_write` (aioblkcopy.c lines 840-869):
`srcSeq` is `ique[j].rqnum` of the matched input slot, `offset` is the
submitted `aio_offset` and `nbytes` the submitted `aio_nbytes`
(`= ique[j].readyb`). -/
structure WriteReq where
  srcSeq : Nat
  offset : Nat
  nbytes : Nat
deriving DecidableEq, Repr

/-- The scalar state of `main`'s loop: request counters, running offsets,
queue-size counters (C `int`, hence `Int`), the `eof` latch, the probe
cursor `pc` into the oracle, the fresh-buffer counter, the log of submitted
writes, and the abort flag for `CUSTOMERROR`. -/
structure Scal where
  irqnum : Nat
  orqnum : Nat
  ioff : Nat
  ooff : Nat
  iqsize : Int
  oqsize : Int
  eof : Bool
  pc : Nat
  nextBuf : Nat
  writeLog : List WriteReq
  aborted : Bool
deriving DecidableEq, Repr

/-- Initial scalar state (aioblkcopy.c lines 141-169). -/
def scal0 : Scal :=
  { irqnum := 0, orqnum := 0, ioff := 0, ooff := 0, iqsize := 0, oqsize := 0,
    eof := false, pc := 0, nextBuf := 0, writeLog := [], aborted := false }

/-- Result of handling one completed/erroneous input-slot probe:
the updated slot, whether `eof = 1` was executed, whether the slot was
released (`free(buffer)`, `iqsize--`), the read resubmitted for a short
read (offset, nbytes), and whether `CUSTOMERROR` fired. -/
structure InRes where
  slot : Slot
  eofSet : Bool
  dec : Bool
  resub : Option (Nat × Nat)
  abort : Bool
deriving DecidableEq, Repr

/-- The `InProgress` input-slot probe handler, aioblkcopy.c lines 569-685.
`aio_error` returning 0 leads to `aio_return` giving `n`; `n = 0` latches
`eof` and the slot becomes `Ready` when `readyb != 0`, else `Free`;
`0 < n` accumulates into `readyb` and resubmits the remainder
(`aio_offset = fdoffset + readyb` when seekable, else 0,
`aio_nbytes = blksize - readyb`) unless the block is complete, in which case
the slot becomes `Ready`.  `ECANCELED` releases the slot; any other error
code hits the `default:` branch, i.e. `CUSTOMERROR`. -/
def handleInProbe (cfg : Config) (s : Slot) (p : Probe) : InRes :=
  match p with
  | .inprog => ⟨s, false, false, none, false⟩
  | .done n =>
    if n = 0 then
      if s.readyb ≠ 0 then
        ⟨{ s with status := .ready }, true, false, none, false⟩
      else
        ⟨{ s with status := .free, buffer := none }, true, true, none, false⟩
    else
      let rb := s.readyb + n
      if rb ≠ cfg.blksize then
        ⟨{ s with readyb := rb }, false, false,
         some (if cfg.iseekable then s.fdoffset + rb else 0, cfg.blksize - rb),
         false⟩
      else
        ⟨{ s with readyb := rb, status := .ready }, false, false, none, false⟩
  | .canceled =>
      ⟨{ s with status := .free, buffer := none }, false, true, none, false⟩
  | .efbig => ⟨s, false, false, none, true⟩
  | .err => ⟨s, false, false, none, true⟩

/-- Result of handling one output-slot probe. -/
structure OutRes where
  slot : Slot
  eofSet : Bool
  dec : Bool
  abort : Bool
deriving DecidableEq, Repr

/-- The `InProgress` output-slot probe handler, aioblkcopy.c lines 755-816.
Completion releases the slot and latches `eof` when `aio_return` reported 0
bytes; `ECANCELED` releases the slot; `EFBIG` (destination full) latches
`eof` and releases the slot; any other code hits `default:` = `CUSTOMERROR`. -/
def handleOutProbe (s : Slot) (p : Probe) : OutRes :=
  match p with
  | .inprog => ⟨s, false, false, false⟩
  | .done n =>
      ⟨{ s with status := .free, buffer := none }, n = 0, true, false⟩
  | .canceled =>
      ⟨{ s with status := .free, buffer := none }, false, true, false⟩
  | .efbig =>
      ⟨{ s with status := .free, buffer := none }, true, true, false⟩
  | .err => ⟨s, false, false, true⟩

/-- One input slot of Pass A (aioblkcopy.c lines 561-744): `Ready` slots are
skipped; `InProgress` slots are probed (consuming one oracle entry);
`Free` slots are skipped once `eof` is latched and otherwise get a fresh
aligned buffer and a new read: `rqnum = ++irqnum`, `readyb = 0`,
`fdoffset = ioff` when seekable else 0, then `ioff += blksize`
(unconditionally, line 732) and `iqsize++`. -/
def stepA (cfg : Config) (env : Nat → Probe) (sc : Scal) (s : Slot) :
    Scal × Slot :=
  match s.status with
  | .ready => (sc, s)
  | .inprogress =>
      let r := handleInProbe cfg s (env sc.pc)
      ({ sc with pc := sc.pc + 1,
                 eof := sc.eof || r.eofSet,
                 iqsize := sc.iqsize - (if r.dec then 1 else 0),
                 aborted := sc.aborted || r.abort }, r.slot)
  | .free =>
      if sc.eof then (sc, s)
      else
        let b := sc.nextBuf
        ({ sc with irqnum := sc.irqnum + 1,
                   ioff := sc.ioff + cfg.blksize,
                   iqsize := sc.iqsize + 1,
                   nextBuf := b + 1 },
         { rqnum := sc.irqnum + 1, status := .inprogress,
           buffer := some b, aioBuf := some b,
           fdoffset := if cfg.iseekable then sc.ioff else 0,
           readyb := 0 })

/-- Pass A traverses the input queue in index order; after a `CUSTOMERROR`
the process has exited, so the remaining slots are left untouched. -/
def passAgo (cfg : Config) (env : Nat → Probe) (sc : Scal) :
    List Slot → Scal × List Slot
  | [] => (sc, [])
  | s :: rest =>
    if sc.aborted then (sc, s :: rest)
    else
      let p := stepA cfg env sc s
      let q := passAgo cfg env p.1 rest
      (q.1, p.2 :: q.2)

/-- The handoff of a `Ready` input slot `sj` to an output slot `so`,
aioblkcopy.c lines 840-876: the output slot acquires the buffer pointer and
submits a write of `ique[j].readyb` bytes at `aio_offset = ooff` when the
*input* is non-seekable, else at `ique[j].fdoffset`; then
`oqsize++`, `ooff += ique[j].readyb`, the input slot's
`aiodata->aio_buf` is nulled (its own `buffer` field is not), the input
slot becomes `Free` and `iqsize--`.  Returns (scalars, output slot, input
slot). -/
def doMatch (cfg : Config) (sc : Scal) (so sj : Slot) :
    Scal × Slot × Slot :=
  let foff := if cfg.iseekable = false then sc.ooff else sj.fdoffset
  let so' : Slot :=
    { so with status := .inprogress, rqnum := sc.orqnum + 1,
              buffer := sj.buffer, aioBuf := sj.buffer, fdoffset := foff }
  let sj' : Slot := { sj with aioBuf := none, status := .free }
  ({ sc with orqnum := sc.orqnum + 1,
             oqsize := sc.oqsize + 1,
             ooff := sc.ooff + sj.readyb,
             iqsize := sc.iqsize - 1,
             writeLog := sc.writeLog ++ [⟨sj.rqnum, foff, sj.readyb⟩] },
   so', sj')

/-- The inner `while (j < imaxqsize)` scan of Pass B (aioblkcopy.c lines
824-893) for one free output slot `so`.  The matching cursor `j` is modelled
by splitting the input queue into the already-scanned prefix `idone` and the
remainder `irem`.  `Free`/`InProgress` input slots are passed over; a
`Ready` slot is passed over when the output is non-seekable and its `rqnum`
is not `orqnum + 1` (line 838), and otherwise matched, which ends the scan. -/
def scanIn (cfg : Config) (sc : Scal) (so : Slot) (idone : List Slot) :
    List Slot → Scal × List Slot × List Slot × Slot
  | [] => (sc, idone, [], so)
  | sj :: rest =>
    match sj.status with
    | .free => scanIn cfg sc so (idone ++ [sj]) rest
    | .inprogress => scanIn cfg sc so (idone ++ [sj]) rest
    | .ready =>
      if cfg.oseekable = false ∧ sj.rqnum ≠ sc.orqnum + 1 then
        scanIn cfg sc so (idone ++ [sj]) rest
      else
        let m := doMatch cfg sc so sj
        (m.1, idone ++ [m.2.2], rest, m.2.1)

/-- Pass B traverses the output queue in index order (aioblkcopy.c lines
751-898): `InProgress` output slots are probed (one oracle entry), any other
slot runs the inner matching scan, with the cursor `j` shared across the
whole pass (`j = 0` once, line 751).  Returns (scalars, input queue, output
queue). -/
def passBgo (cfg : Config) (env : Nat → Probe) (sc : Scal)
    (idone irem : List Slot) : List Slot → Scal × List Slot × List Slot
  | [] => (sc, idone ++ irem, [])
  | so :: orest =>
    if sc.aborted then (sc, idone ++ irem, so :: orest)
    else
      match so.status with
      | .inprogress =>
        let r := handleOutProbe so (env sc.pc)
        let sc' := { sc with pc := sc.pc + 1,
                             eof := sc.eof || r.eofSet,
                             oqsize := sc.oqsize - (if r.dec then 1 else 0),
                             aborted := sc.aborted || r.abort }
        let q := passBgo cfg env sc' idone irem orest
        (q.1, q.2.1, r.slot :: q.2.2)
      | _ =>
        let m := scanIn cfg sc so idone irem
        let q := passBgo cfg env m.1 m.2.1 m.2.2.1 orest
        (q.1, q.2.1, m.2.2.2 :: q.2.2)

/-- The whole scheduler state: scalars plus the two slot queues. -/
structure St where
  sc : Scal
  ique : List Slot
  oque : List Slot
deriving DecidableEq, Repr

/-- The state after queue initialisation (aioblkcopy.c lines 426-516). -/
def initSt (cfg : Config) : St :=
  { sc := scal0,
    ique := List.replicate cfg.imaxqsize slot0,
    oque := List.replicate cfg.omaxqsize slot0 }

/-- One iteration of the main `for(;;)` loop: Pass A then Pass B. -/
def iter (cfg : Config) (env : Nat → Probe) (st : St) : St :=
  let a := passAgo cfg env st.sc st.ique
  let b := passBgo cfg env a.1 [] a.2 st.oque
  { sc := b.1, ique := b.2.1, oque := b.2.2 }

/-- The loop-exit test at aioblkcopy.c line 904:
`(iqsize == 0) && (oqsize == 0) && (eof == 1)`. -/
def exitCond (sc : Scal) : Bool :=
  sc.iqsize == 0 && sc.oqsize == 0 && sc.eof

/-- The state at the top of the main loop after at most `f` iterations;
once the loop has broken out (or `CUSTOMERROR` exited the process) the
state is frozen. -/
def runSt (cfg : Config) (env : Nat → Probe) : Nat → St
  | 0 => initSt cfg
  | f + 1 =>
    let st := runSt cfg env f
    if st.sc.aborted || exitCond st.sc then st else iter cfg env st

/-- The main loop run to completion with fuel: `some (code, st)` when the
process exits within `f` iterations, where `code` is the process exit
status — `EXIT_FAILURE` (1) from `CUSTOMERROR`, else `EXIT_SUCCESS` (0)
from `return EXIT_SUCCESS` (line 958). -/
def runP (cfg : Config) (env : Nat → Probe) : Nat → St → Option (Nat × St)
  | 0, _ => none
  | f + 1, st =>
    let st' := iter cfg env st
    if st'.sc.aborted then some (1, st')
    else if exitCond st'.sc then some (0, st')
    else runP cfg env f st'

/-- The process exit code of a completed run, when it completes in `f`
iterations. -/
def exitCodeOf (cfg : Config) (env : Nat → Probe) (f : Nat) : Option Nat :=
  (runP cfg env f (initSt cfg)).map (·.1)

/-- Whether a completed run ended via `CUSTOMERROR`. -/
def abortedOf (cfg : Config) (env : Nat → Probe) (f : Nat) : Option Bool :=
  (runP cfg env f (initSt cfg)).map (·.2.sc.aborted)

/-! ### Block-size argument validation (aioblkcopy.c lines 259-321)

The `-b` argument is parsed by `strtoul` into a value and a suffix string.
A one-character suffix `K`/`k` scales by 1024 and `M`/`m` by 1024·1024; any
other non-empty suffix exits with `EXIT_USAGE` (1, aioblkcopy.h line 31).
Then values not a multiple of 512, and values above 16 megabytes, also exit
with `EXIT_USAGE`; everything else is stored as `blksize`. -/

/-- `EXIT_USAGE` (aioblkcopy.h line 31). -/
def EXIT_USAGE : Nat := 1

/-- The suffix handling of lines 267-303: scale by the suffix, or `none`
for a rejected suffix. -/
def applySuffix (tint : Nat) : List Char → Option Nat
  | [] => some tint
  | [c] =>
    if c = 'K' ∨ c = 'k' then some (tint * 1024)
    else if c = 'M' ∨ c = 'm' then some (tint * 1024 * 1024)
    else none
  | _ :: _ :: _ => none

/-- The whole `-b` validation (lines 259-321) on a parsed value and suffix:
`.ok v` means `globalparams.blksize = v`; `.error c` means `exit(c)`. -/
def parseBlk (tint : Nat) (suffix : List Char) : Except Nat Nat :=
  match applySuffix tint suffix with
  | none => .error EXIT_USAGE
  | some t =>
    if t % 512 ≠ 0 then .error EXIT_USAGE
    else if t > 1024 * 1024 * 16 then .error EXIT_USAGE
    else .ok t

/-! ### Startup seekability classification (aioblkcopy.c lines 341-415)

`stat()` fills one shared `struct stat statdata`.  For the input: no path
means standard input, classified non-seekable without calling `stat`; with
a path, `stat` must succeed and the side is seekable iff
`S_ISREG || S_ISBLK`.  For the output (lines 384-401): `stat` failing with
`ENOENT` is tolerated — but then the `S_ISREG/S_ISBLK` test reads whatever
`statdata` held before, i.e. the *input*'s stat data (or indeterminate
memory when the input was standard input). -/

/-- The file type recorded in `st_mode`, as far as the classification
looks at it. -/
inductive FileKind where
  | regular
  | blockdev
  | chardev
  | fifo
  | other
deriving DecidableEq, Repr

/-- `S_ISREG(m) || S_ISBLK(m)`. -/
def isSeekKind (k : FileKind) : Bool :=
  match k with
  | .regular => true
  | .blockdev => true
  | _ => false

/-- Input-side classification (lines 348-378): given `none` (no `-i` path:
standard input) or `some k` (path present, `stat` succeeded with kind `k`),
returns `(iseekable, statdata)` where `statdata` is the stat buffer's
content afterwards (`none` = never written). -/
def classifyInput (input : Option FileKind) : Bool × Option FileKind :=
  match input with
  | none => (false, none)
  | some k => (isSeekKind k, some k)

/-- Output-side classification (lines 384-415) given the stat buffer left
by the input side.  `output = none`: no `-o` path (standard output);
`output = some (some k)`: path present and `stat` succeeded with kind `k`;
`output = some none`: path present but `stat` failed with `ENOENT` — the
code proceeds and tests the *stale* stat buffer.  Result `none` means the
classification reads indeterminate memory (no prior `stat` call). -/
def classifyOutput (statdata : Option FileKind)
    (output : Option (Option FileKind)) : Option Bool :=
  match output with
  | none => some false
  | some (some k) => some (isSeekKind k)
  | some none => statdata.map isSeekKind

/-- Both classifications as performed at startup: input kind (if a path is
given) and output stat outcome (if a path is given) to
`(iseekable, oseekable)`. -/
def classify (input : Option FileKind)
    (output : Option (Option FileKind)) : Bool × Option Bool :=
  let c := classifyInput input
  (c.1, classifyOutput c.2 output)

/-! ### Concrete inputs used by witnesses and counterexamples -/

/-- Oracle answering every probe with a full 512-byte completion. -/
def envD : Nat → Probe := fun _ => .done 512

/-- blksize 512, one slot per queue, both sides non-seekable. -/
def cfgO : Config :=
  { blksize := 512, imaxqsize := 1, omaxqsize := 1,
    iseekable := false, oseekable := false }

/-- blksize 512, two slots per queue, both sides seekable. -/
def cfgS : Config :=
  { blksize := 512, imaxqsize := 2, omaxqsize := 2,
    iseekable := true, oseekable := true }

/-- Oracle for the out-of-order completion trace: the first probe (the read
on slot 0) is still in progress, every later probe completes with 512
bytes. -/
def envS : Nat → Probe := fun n => if n = 0 then .inprog else .done 512

/-- blksize 512, one slot per queue, seekable input, non-seekable output. -/
def cfgN : Config :=
  { blksize := 512, imaxqsize := 1, omaxqsize := 1,
    iseekable := true, oseekable := false }

/-- Oracle for the destination-full trace: the first read completes with
512 bytes, the write probe reports `EFBIG`, the following read reports
end of file. -/
def envE : Nat → Probe := fun n =>
  if n = 0 then .done 512 else if n = 1 then .efbig else .done 0

/-- A concrete `Ready` input slot holding buffer 7. -/
def sjW : Slot :=
  { rqnum := 1, status := .ready, buffer := some 7, aioBuf := some 7,
    fdoffset := 0, readyb := 512 }

/-- A concrete `InProgress` input slot, 100 bytes accumulated. -/
def sW : Slot :=
  { rqnum := 1, status := .inprogress, buffer := some 3, aioBuf := some 3,
    fdoffset := 1024, readyb := 100 }

/-! ### Derived notions used to state the claims -/

/-- Contribution of one slot to the queue-size counters: 1 unless `Free`. -/
def cnt1 (s : Slot) : Int :=
  if s.status = .free then 0 else 1

/-- The number of slots of a queue whose status is not `Free`. -/
def cnf : List Slot → Int
  | [] => 0
  | s :: t => cnt1 s + cnf t

/-- `offsRun acc l`: the offsets of the logged writes `l` are the running
byte totals starting from `acc` — each write starts where the previous one
ended. -/
def offsRun : Nat → List WriteReq → Prop
  | _, [] => True
  | acc, e :: t => e.offset = acc ∧ offsRun (acc + e.nbytes) t

/-- The facts the scheduler maintains about the submitted-write log:
one write per `orqnum` increment; against a non-seekable output the source
read sequence numbers are exactly `1, 2, ..., orqnum`; with a seekable
input every write carries the matched read's offset
`(srcSeq - 1) · blksize`; `ooff` is the running total of bytes submitted
for writing; with a non-seekable input the offsets are the running totals;
and (for a positive block size) every write moves at least one byte. -/
def WInv (cfg : Config) (sc : Scal) : Prop :=
  sc.orqnum = sc.writeLog.length ∧
  (cfg.oseekable = false →
    sc.writeLog.map WriteReq.srcSeq = List.range' 1 sc.writeLog.length) ∧
  (cfg.iseekable = true →
    ∀ e ∈ sc.writeLog, e.offset = (e.srcSeq - 1) * cfg.blksize) ∧
  sc.ooff = (sc.writeLog.map WriteReq.nbytes).sum ∧
  (cfg.iseekable = false → offsRun 0 sc.writeLog) ∧
  (0 < cfg.blksize → ∀ e ∈ sc.writeLog, 0 < e.nbytes)

/-- Per-input-slot facts: with a seekable input a live slot's `fdoffset`
is `(rqnum - 1) · blksize`, and (for a positive block size) a `Ready` slot
holds at least one byte. -/
def SlotFacts (cfg : Config) (s : Slot) : Prop :=
  (cfg.iseekable = true → s.status ≠ .free →
    s.fdoffset = (s.rqnum - 1) * cfg.blksize) ∧
  (0 < cfg.blksize → s.status = .ready → 0 < s.readyb)

/-- The scheduler-loop invariant: the `iqsize`/`oqsize` counters equal the
number of non-`Free` slots of their queue, the write-log facts and
per-slot facts hold, with a seekable input `ioff` tracks
`irqnum · blksize`, and output slots never enter `Ready`. -/
structure Inv (cfg : Config) (st : St) : Prop where
  iq : st.sc.iqsize = cnf st.ique
  oq : st.sc.oqsize = cnf st.oque
  w : WInv cfg st.sc
  slots : ∀ s ∈ st.ique, SlotFacts cfg s
  ioffI : cfg.iseekable = true → st.sc.ioff = st.sc.irqnum * cfg.blksize
  outNR : ∀ s ∈ st.oque, s.status ≠ .ready

/-! ### Helper lemmas -/

theorem cnf_nonneg (l : List Slot) : 0 ≤ cnf l := by
  induction l with
  | nil => simp [cnf]
  | cons s t ih =>
    have : 0 ≤ cnt1 s := by unfold cnt1; split <;> simp
    simp only [cnf]; omega

theorem cnf_append (a b : List Slot) : cnf (a ++ b) = cnf a + cnf b := by
  induction a with
  | nil => simp [cnf]
  | cons s t ih =>
    show cnt1 s + cnf (t ++ b) = cnt1 s + cnf t + cnf b
    rw [ih]; ring

theorem cnf_eq_zero (l : List Slot) :
    cnf l = 0 ↔ ∀ s ∈ l, s.status = .free := by
  induction l with
  | nil => simp [cnf]
  | cons s t ih =>
    have h0 : 0 ≤ cnt1 s := by unfold cnt1; split <;> simp
    have h1 : 0 ≤ cnf t := cnf_nonneg t
    constructor
    · intro h
      have hs : cnt1 s = 0 := by simp only [cnf] at h; omega
      have ht : cnf t = 0 := by simp only [cnf] at h; omega
      intro x hx
      rcases List.mem_cons.mp hx with hx | hx
      · subst hx
        by_contra hne
        simp [cnt1, hne] at hs
      · exact (ih.mp ht) x hx
    · intro h
      have hs : s.status = .free := h s (List.mem_cons_self s t)
      have ht : cnf t = 0 := ih.mpr fun x hx => h x (List.mem_cons_of_mem s hx)
      simp [cnf, cnt1, hs, ht]

theorem cnf_replicate (n : Nat) : cnf (List.replicate n slot0) = 0 := by
  induction n with
  | zero => simp [cnf]
  | succ k ih =>
    show cnt1 slot0 + cnf (List.replicate k slot0) = 0
    rw [ih]
    simp [cnt1, slot0]

theorem offsRun_append (l : List WriteReq) :
    ∀ (acc : Nat) (e : WriteReq),
      offsRun acc (l ++ [e]) ↔
        (offsRun acc l ∧ e.offset = acc + (l.map WriteReq.nbytes).sum) := by
  induction l with
  | nil => intro acc e; simp [offsRun]
  | cons a t ih =>
    intro acc e
    show (a.offset = acc ∧ offsRun (acc + a.nbytes) (t ++ [e])) ↔ _
    rw [ih (acc + a.nbytes) e]
    show _ ↔ ((a.offset = acc ∧ offsRun (acc + a.nbytes) t) ∧
      e.offset = acc + (List.map WriteReq.nbytes (a :: t)).sum)
    simp only [List.map_cons, List.sum_cons]
    constructor
    · rintro ⟨h1, h2, h3⟩
      exact ⟨⟨h1, h2⟩, by omega⟩
    · rintro ⟨⟨h1, h2⟩, h3⟩
      exact ⟨h1, h2, by omega⟩

theorem range'_concat_gen (n : Nat) :
    ∀ s : Nat, List.range' s (n + 1) = List.range' s n ++ [s + n] := by
  induction n with
  | zero => intro s; simp [List.range']
  | succ k ih =>
    intro s
    show s :: List.range' (s + 1) (k + 1) =
      (s :: List.range' (s + 1) k) ++ [s + (k + 1)]
    rw [ih (s + 1)]
    simp [List.cons_append]
    omega

theorem range1_concat (n : Nat) :
    List.range' 1 (n + 1) = List.range' 1 n ++ [n + 1] := by
  rw [range'_concat_gen n 1, Nat.add_comm 1 n]

theorem winv_congr {cfg : Config} {a b : Scal}
    (h1 : b.orqnum = a.orqnum) (h2 : b.writeLog = a.writeLog)
    (h3 : b.ooff = a.ooff) (h : WInv cfg a) : WInv cfg b := by
  unfold WInv at h ⊢
  rw [h1, h2, h3]
  exact h

/-! ### Pass A: per-slot and whole-pass lemmas -/

theorem stepA_frame (cfg : Config) (env : Nat → Probe) (sc : Scal)
    (s : Slot) :
    (stepA cfg env sc s).1.orqnum = sc.orqnum ∧
    (stepA cfg env sc s).1.oqsize = sc.oqsize ∧
    (stepA cfg env sc s).1.ooff = sc.ooff ∧
    (stepA cfg env sc s).1.writeLog = sc.writeLog := by
  obtain ⟨rq, stat, buf, abuf, off, ryb⟩ := s
  cases stat with
  | ready => simp [stepA]
  | free => cases he : sc.eof <;> simp [stepA, he]
  | inprogress => simp [stepA]

theorem stepA_count (cfg : Config) (env : Nat → Probe) (sc : Scal)
    (s : Slot) :
    (stepA cfg env sc s).1.iqsize + cnt1 s =
      sc.iqsize + cnt1 (stepA cfg env sc s).2 := by
  obtain ⟨rq, stat, buf, abuf, off, ryb⟩ := s
  cases stat with
  | ready => simp [stepA]
  | free => cases he : sc.eof <;> simp [stepA, he, cnt1]
  | inprogress =>
    cases hp : env sc.pc with
    | inprog => simp [stepA, hp, handleInProbe, cnt1]
    | canceled => simp [stepA, hp, handleInProbe, cnt1]
    | efbig => simp [stepA, hp, handleInProbe, cnt1]
    | err => simp [stepA, hp, handleInProbe, cnt1]
    | done n =>
      simp only [stepA, hp, handleInProbe]
      split_ifs <;> simp_all [cnt1]

theorem handleInProbe_fields (cfg : Config) (s : Slot) (p : Probe) :
    (handleInProbe cfg s p).slot.rqnum = s.rqnum ∧
    (handleInProbe cfg s p).slot.fdoffset = s.fdoffset := by
  obtain ⟨rq, stat, buf, abuf, off, ryb⟩ := s
  cases p with
  | inprog => simp [handleInProbe]
  | canceled => simp [handleInProbe]
  | efbig => simp [handleInProbe]
  | err => simp [handleInProbe]
  | done n =>
    simp only [handleInProbe]
    split_ifs <;> simp

theorem handleInProbe_ready (cfg : Config) (s : Slot) (p : Probe)
    (hstat : s.status = .inprogress) (hb : 0 < cfg.blksize) :
    (handleInProbe cfg s p).slot.status = .ready →
      0 < (handleInProbe cfg s p).slot.readyb := by
  obtain ⟨rq, stat, buf, abuf, off, ryb⟩ := s
  simp only [Slot.mk.injEq] at hstat ⊢
  subst hstat
  cases p with
  | inprog => simp [handleInProbe]
  | canceled => simp [handleInProbe]
  | efbig => simp [handleInProbe]
  | err => simp [handleInProbe]
  | done n =>
    simp only [handleInProbe]
    split_ifs <;> intro h <;> simp_all <;> omega

theorem handleInProbe_nonfree (cfg : Config) (s : Slot) (p : Probe)
    (hstat : s.status = .inprogress) :
    (handleInProbe cfg s p).slot.status ≠ .free → s.status ≠ .free := by
  intro _
  rw [hstat]
  simp

theorem stepA_slots (cfg : Config) (env : Nat → Probe) (sc : Scal)
    (s : Slot)
    (hio : cfg.iseekable = true → sc.ioff = sc.irqnum * cfg.blksize)
    (hs : SlotFacts cfg s) :
    (cfg.iseekable = true →
      (stepA cfg env sc s).1.ioff =
        (stepA cfg env sc s).1.irqnum * cfg.blksize) ∧
    SlotFacts cfg (stepA cfg env sc s).2 := by
  cases hstat : s.status with
  | ready =>
    simp only [stepA, hstat]
    exact ⟨hio, hs⟩
  | inprogress =>
    simp only [stepA, hstat]
    obtain ⟨hf1, hf2⟩ := handleInProbe_fields cfg s (env sc.pc)
    refine ⟨fun hsk => hio hsk, ?_, ?_⟩
    · intro hsk hne
      rw [hf1, hf2]
      exact hs.1 hsk (handleInProbe_nonfree cfg s (env sc.pc) hstat hne)
    · intro hb
      exact handleInProbe_ready cfg s (env sc.pc) hstat hb
  | free =>
    cases he : sc.eof with
    | true =>
      simp only [stepA, hstat, he, if_true]
      exact ⟨hio, hs⟩
    | false =>
      simp only [stepA, hstat, he, Bool.false_eq_true, if_false]
      refine ⟨?_, ?_, ?_⟩
      · intro hsk
        rw [hio hsk]
        ring
      · intro hsk _
        simp only [hsk, if_true]
        rw [hio hsk]
        simp
      · intro _ hst
        simp at hst

theorem cnf_cons (s : Slot) (t : List Slot) : cnf (s :: t) = cnt1 s + cnf t :=
  rfl

theorem passAgo_main (cfg : Config) (env : Nat → Probe) :
    ∀ (l : List Slot) (sc : Scal),
    (cfg.iseekable = true → sc.ioff = sc.irqnum * cfg.blksize) →
    (∀ s ∈ l, SlotFacts cfg s) →
    (cfg.iseekable = true →
      (passAgo cfg env sc l).1.ioff =
        (passAgo cfg env sc l).1.irqnum * cfg.blksize) ∧
    (∀ s ∈ (passAgo cfg env sc l).2, SlotFacts cfg s) ∧
    ((passAgo cfg env sc l).1.iqsize + cnf l =
      sc.iqsize + cnf (passAgo cfg env sc l).2) ∧
    (passAgo cfg env sc l).1.orqnum = sc.orqnum ∧
    (passAgo cfg env sc l).1.oqsize = sc.oqsize ∧
    (passAgo cfg env sc l).1.ooff = sc.ooff ∧
    (passAgo cfg env sc l).1.writeLog = sc.writeLog := by
  intro l
  induction l with
  | nil =>
    intro sc h1 h2
    simp [passAgo]
    exact h1
  | cons s rest ih =>
    intro sc hio hsl
    cases hab : sc.aborted with
    | true =>
      have he : passAgo cfg env sc (s :: rest) = (sc, s :: rest) := by
        simp [passAgo, hab]
      rw [he]
      exact ⟨hio, hsl, rfl, rfl, rfl, rfl, rfl⟩
    | false =>
      simp only [passAgo, hab, Bool.false_eq_true, if_false]
      obtain ⟨hioA, hsA⟩ :=
        stepA_slots cfg env sc s hio (hsl s (List.mem_cons_self s rest))
      have hcA := stepA_count cfg env sc s
      obtain ⟨hfA1, hfA2, hfA3, hfA4⟩ := stepA_frame cfg env sc s
      obtain ⟨ih1, ih2, ih3, ih4, ih5, ih6, ih7⟩ :=
        ih (stepA cfg env sc s).1 hioA
          (fun x hx => hsl x (List.mem_cons_of_mem s hx))
      refine ⟨ih1, ?_, ?_, ?_, ?_, ?_, ?_⟩
      · intro x hx
        rcases List.mem_cons.mp hx with hx | hx
        · rw [hx]; exact hsA
        · exact ih2 x hx
      · rw [cnf_cons, cnf_cons]
        omega
      · rw [ih4, hfA1]
      · rw [ih5, hfA2]
      · rw [ih6, hfA3]
      · rw [ih7, hfA4]

/-! ### Pass B: per-step and whole-pass lemmas -/

theorem handleOutProbe_spec (s : Slot) (p : Probe)
    (hstat : s.status = .inprogress) :
    cnt1 (handleOutProbe s p).slot +
      (if (handleOutProbe s p).dec then 1 else 0) = cnt1 s ∧
    (handleOutProbe s p).slot.status ≠ .ready := by
  cases p <;> simp [handleOutProbe, cnt1, hstat]

theorem doMatch_spec (cfg : Config) (sc : Scal) (so sj : Slot)
    (hsj : sj.status = .ready) (hso : so.status = .free)
    (hgate : cfg.oseekable = false → sj.rqnum = sc.orqnum + 1)
    (hw : WInv cfg sc) (hfs : SlotFacts cfg sj) :
    WInv cfg (doMatch cfg sc so sj).1 ∧
    SlotFacts cfg (doMatch cfg sc so sj).2.2 ∧
    (doMatch cfg sc so sj).2.2.status = .free ∧
    (doMatch cfg sc so sj).2.1.status = .inprogress ∧
    (doMatch cfg sc so sj).1.iqsize = sc.iqsize - 1 ∧
    (doMatch cfg sc so sj).1.oqsize = sc.oqsize + 1 ∧
    (doMatch cfg sc so sj).1.irqnum = sc.irqnum ∧
    (doMatch cfg sc so sj).1.ioff = sc.ioff ∧
    (doMatch cfg sc so sj).1.pc = sc.pc ∧
    (doMatch cfg sc so sj).1.eof = sc.eof ∧
    (doMatch cfg sc so sj).1.aborted = sc.aborted := by
  obtain ⟨w1, w2, w3, w4, w5, w6⟩ := hw
  simp only [doMatch]
  refine ⟨⟨?_, ?_, ?_, ?_, ?_, ?_⟩, ⟨?_, ?_⟩, ?_, ?_, ?_, ?_, ?_, ?_, ?_, ?_, ?_⟩
  · rw [List.length_append, w1]
    rfl
  · intro ho
    have hr : sj.rqnum = sc.writeLog.length + 1 := by
      rw [hgate ho, w1]
    simp only [List.map_append, List.map_cons, List.map_nil,
      List.length_append, List.length_cons, List.length_nil, w2 ho, hr]
    norm_num
    rw [range1_concat]
  · intro hsk e he
    rcases List.mem_append.mp he with he | he
    · exact w3 hsk e he
    · have heq : e = ⟨sj.rqnum,
          if cfg.iseekable = false then sc.ooff else sj.fdoffset,
          sj.readyb⟩ := List.mem_singleton.mp he
      have hoff := hfs.1 hsk (by rw [hsj]; simp)
      rw [heq]
      simp [hsk, hoff]
  · rw [List.map_append, List.sum_append, w4]
    simp
  · intro hns
    rw [offsRun_append]
    refine ⟨w5 hns, ?_⟩
    simp [hns, w4]
  · intro hb e he
    rcases List.mem_append.mp he with he | he
    · exact w6 hb e he
    · have heq : e = ⟨sj.rqnum,
          if cfg.iseekable = false then sc.ooff else sj.fdoffset,
          sj.readyb⟩ := List.mem_singleton.mp he
      rw [heq]
      exact hfs.2 hb hsj
  · intro _ hne
    simp at hne
  · intro _ hst
    simp at hst
  · trivial
  · trivial
  · trivial
  · trivial
  · trivial
  · trivial
  · trivial
  · trivial
  · trivial

theorem scanIn_main (cfg : Config) (so : Slot) (hso : so.status = .free) :
    ∀ (irem : List Slot) (sc : Scal) (idone : List Slot),
    WInv cfg sc →
    (∀ s ∈ idone ++ irem, SlotFacts cfg s) →
    WInv cfg (scanIn cfg sc so idone irem).1 ∧
    (∀ s ∈ (scanIn cfg sc so idone irem).2.1 ++
        (scanIn cfg sc so idone irem).2.2.1, SlotFacts cfg s) ∧
    ((scanIn cfg sc so idone irem).1.iqsize + cnf (idone ++ irem) =
      sc.iqsize + cnf ((scanIn cfg sc so idone irem).2.1 ++
        (scanIn cfg sc so idone irem).2.2.1)) ∧
    ((scanIn cfg sc so idone irem).1.oqsize + cnt1 so =
      sc.oqsize + cnt1 (scanIn cfg sc so idone irem).2.2.2) ∧
    (scanIn cfg sc so idone irem).2.2.2.status ≠ .ready ∧
    (scanIn cfg sc so idone irem).1.irqnum = sc.irqnum ∧
    (scanIn cfg sc so idone irem).1.ioff = sc.ioff ∧
    (scanIn cfg sc so idone irem).1.pc = sc.pc ∧
    (scanIn cfg sc so idone irem).1.eof = sc.eof ∧
    (scanIn cfg sc so idone irem).1.aborted = sc.aborted := by
  intro irem
  induction irem with
  | nil =>
    intro sc idone hw hs
    simp only [scanIn]
    refine ⟨hw, hs, ?_, ?_, ?_, ?_, ?_, ?_, ?_, ?_⟩ <;>
      first
      | trivial
      | (rw [hso]; simp)
  | cons sj rest ih =>
    intro sc idone hw hs
    have hmvsr : ∀ s ∈ (idone ++ [sj]) ++ rest, SlotFacts cfg s := by
      intro x hx
      apply hs
      simpa [List.append_assoc] using hx
    have hcnfm : cnf ((idone ++ [sj]) ++ rest) = cnf (idone ++ sj :: rest) := by
      simp only [cnf_append, cnf]
      ring
    cases hsj : sj.status with
    | free =>
      simp only [scanIn, hsj]
      obtain ⟨j1, j2, j3, j4, j5, j6, j7, j8, j9, j10⟩ :=
        ih sc (idone ++ [sj]) hw hmvsr
      refine ⟨j1, j2, ?_, j4, j5, j6, j7, j8, j9, j10⟩
      rw [← hcnfm]
      exact j3
    | inprogress =>
      simp only [scanIn, hsj]
      obtain ⟨j1, j2, j3, j4, j5, j6, j7, j8, j9, j10⟩ :=
        ih sc (idone ++ [sj]) hw hmvsr
      refine ⟨j1, j2, ?_, j4, j5, j6, j7, j8, j9, j10⟩
      rw [← hcnfm]
      exact j3
    | ready =>
      by_cases hg : cfg.oseekable = false ∧ sj.rqnum ≠ sc.orqnum + 1
      · simp only [scanIn, hsj, if_pos hg]
        obtain ⟨j1, j2, j3, j4, j5, j6, j7, j8, j9, j10⟩ :=
          ih sc (idone ++ [sj]) hw hmvsr
        refine ⟨j1, j2, ?_, j4, j5, j6, j7, j8, j9, j10⟩
        rw [← hcnfm]
        exact j3
      · simp only [scanIn, hsj, if_neg hg]
        have hgate : cfg.oseekable = false → sj.rqnum = sc.orqnum + 1 := by
          intro ho
          by_contra hne
          exact hg ⟨ho, hne⟩
        have hsfj : SlotFacts cfg sj :=
          hs sj (List.mem_append.mpr (Or.inr (List.mem_cons_self sj rest)))
        obtain ⟨m1, m2, m3, m4, m5, m6, m7, m8, m9, m10, m11⟩ :=
          doMatch_spec cfg sc so sj hsj hso hgate hw hsfj
        refine ⟨m1, ?_, ?_, ?_, ?_, m7, m8, m9, m10, m11⟩
        · intro x hx
          rcases List.mem_append.mp hx with hx | hx
          · rcases List.mem_append.mp hx with hx | hx
            · exact hs x (List.mem_append.mpr (Or.inl hx))
            · rw [List.mem_singleton.mp hx]
              exact m2
          · exact hs x
              (List.mem_append.mpr (Or.inr (List.mem_cons_of_mem sj hx)))
        · have e1 : cnf (idone ++ sj :: rest) =
              cnf idone + cnt1 sj + cnf rest := by
            rw [cnf_append, cnf_cons]; ring
          have e2 : cnf ((idone ++ [(doMatch cfg sc so sj).2.2]) ++ rest) =
              cnf idone + cnt1 (doMatch cfg sc so sj).2.2 + cnf rest := by
            simp only [cnf_append, cnf]
            ring
          have hc1 : cnt1 sj = 1 := by simp [cnt1, hsj]
          have hc2 : cnt1 (doMatch cfg sc so sj).2.2 = 0 := by
            simp [cnt1, m3]
          rw [e1, e2, hc1, hc2, m5]
          ring
        · have hc3 : cnt1 so = 0 := by simp [cnt1, hso]
          have hc4 : cnt1 (doMatch cfg sc so sj).2.1 = 1 := by
            simp [cnt1, m4]
          rw [hc3, hc4, m6]
          ring
        · rw [m4]
          simp

theorem passBgo_main (cfg : Config) (env : Nat → Probe) :
    ∀ (oq : List Slot) (sc : Scal) (idone irem : List Slot),
    WInv cfg sc →
    (∀ s ∈ idone ++ irem, SlotFacts cfg s) →
    (∀ s ∈ oq, s.status ≠ .ready) →
    WInv cfg (passBgo cfg env sc idone irem oq).1 ∧
    (∀ s ∈ (passBgo cfg env sc idone irem oq).2.1, SlotFacts cfg s) ∧
    ((passBgo cfg env sc idone irem oq).1.iqsize + cnf (idone ++ irem) =
      sc.iqsize + cnf (passBgo cfg env sc idone irem oq).2.1) ∧
    ((passBgo cfg env sc idone irem oq).1.oqsize + cnf oq =
      sc.oqsize + cnf (passBgo cfg env sc idone irem oq).2.2) ∧
    (∀ s ∈ (passBgo cfg env sc idone irem oq).2.2, s.status ≠ .ready) ∧
    (passBgo cfg env sc idone irem oq).1.irqnum = sc.irqnum ∧
    (passBgo cfg env sc idone irem oq).1.ioff = sc.ioff := by
  intro oq
  induction oq with
  | nil =>
    intro sc idone irem hw hs hnr
    simp only [passBgo]
    refine ⟨hw, hs, ?_, ?_, ?_, ?_, ?_⟩ <;>
      first
      | trivial
      | (intro x hx; simp at hx)
  | cons so orest ih =>
    intro sc idone irem hw hs hnr
    by_cases hab : sc.aborted = true
    · have he : passBgo cfg env sc idone irem (so :: orest) =
          (sc, idone ++ irem, so :: orest) := by
        simp [passBgo, hab]
      rw [he]
      exact ⟨hw, hs, rfl, rfl, hnr, rfl, rfl⟩
    · cases hstat : so.status with
      | ready =>
        exact absurd hstat (hnr so (List.mem_cons_self so orest))
      | inprogress =>
        simp only [passBgo, if_neg hab, hstat]
        obtain ⟨hoc, honr⟩ := handleOutProbe_spec so (env sc.pc) hstat
        obtain ⟨i1, i2, i3, i4, i5, i6, i7⟩ :=
          ih ({ sc with
                pc := sc.pc + 1,
                eof := sc.eof || (handleOutProbe so (env sc.pc)).eofSet,
                oqsize := sc.oqsize -
                  (if (handleOutProbe so (env sc.pc)).dec then 1 else 0),
                aborted := sc.aborted || (handleOutProbe so (env sc.pc)).abort })
            idone irem (winv_congr rfl rfl rfl hw) hs
            (fun x hx => hnr x (List.mem_cons_of_mem so hx))
        refine ⟨i1, i2, i3, ?_, ?_, i6, i7⟩
        · have i4x : (passBgo cfg env ({ sc with
                pc := sc.pc + 1,
                eof := sc.eof || (handleOutProbe so (env sc.pc)).eofSet,
                oqsize := sc.oqsize -
                  (if (handleOutProbe so (env sc.pc)).dec then 1 else 0),
                aborted := sc.aborted ||
                  (handleOutProbe so (env sc.pc)).abort })
              idone irem orest).1.oqsize + cnf orest =
              (sc.oqsize -
                (if (handleOutProbe so (env sc.pc)).dec then 1 else 0)) +
              cnf (passBgo cfg env ({ sc with
                pc := sc.pc + 1,
                eof := sc.eof || (handleOutProbe so (env sc.pc)).eofSet,
                oqsize := sc.oqsize -
                  (if (handleOutProbe so (env sc.pc)).dec then 1 else 0),
                aborted := sc.aborted ||
                  (handleOutProbe so (env sc.pc)).abort })
              idone irem orest).2.2 := i4
          rw [cnf_cons, cnf_cons]
          omega
        · intro x hx
          rcases List.mem_cons.mp hx with hx | hx
          · rw [hx]
            exact honr
          · exact i5 x hx
      | free =>
        simp only [passBgo, if_neg hab, hstat]
        obtain ⟨s1, s2, s3, s4, s5, s6, s7, s8, s9, s10⟩ :=
          scanIn_main cfg so hstat irem sc idone hw hs
        obtain ⟨i1, i2, i3, i4, i5, i6, i7⟩ :=
          ih _ _ _ s1 s2 (fun x hx => hnr x (List.mem_cons_of_mem so hx))
        refine ⟨i1, i2, ?_, ?_, ?_, ?_, ?_⟩
        · omega
        · rw [cnf_cons, cnf_cons]
          omega
        · intro x hx
          rcases List.mem_cons.mp hx with hx | hx
          · rw [hx]
            exact s5
          · exact i5 x hx
        · rw [i6, s6]
        · rw [i7, s7]

/-! ### The invariant holds in every reachable state -/

theorem iter_inv (cfg : Config) (env : Nat → Probe) (st : St)
    (h : Inv cfg st) : Inv cfg (iter cfg env st) := by
  obtain ⟨hiq, hoq, hw, hslots, hioff, hnr⟩ := h
  obtain ⟨a1, a2, a3, a4, a5, a6, a7⟩ :=
    passAgo_main cfg env st.ique st.sc hioff hslots
  have hwA : WInv cfg (passAgo cfg env st.sc st.ique).1 :=
    winv_congr a4 a7 a6 hw
  obtain ⟨b1, b2, b3, b4, b5, b6, b7⟩ :=
    passBgo_main cfg env st.oque (passAgo cfg env st.sc st.ique).1 []
      (passAgo cfg env st.sc st.ique).2 hwA a2 hnr
  rw [List.nil_append] at b3
  refine ⟨?_, ?_, b1, b2, ?_, b5⟩
  · show (passBgo cfg env (passAgo cfg env st.sc st.ique).1 [] (passAgo cfg env st.sc st.ique).2 st.oque).1.iqsize =
      cnf (passBgo cfg env (passAgo cfg env st.sc st.ique).1 [] (passAgo cfg env st.sc st.ique).2 st.oque).2.1
    omega
  · show (passBgo cfg env (passAgo cfg env st.sc st.ique).1 [] (passAgo cfg env st.sc st.ique).2 st.oque).1.oqsize =
      cnf (passBgo cfg env (passAgo cfg env st.sc st.ique).1 [] (passAgo cfg env st.sc st.ique).2 st.oque).2.2
    omega
  · intro hsk
    show (passBgo cfg env (passAgo cfg env st.sc st.ique).1 [] (passAgo cfg env st.sc st.ique).2 st.oque).1.ioff =
      (passBgo cfg env (passAgo cfg env st.sc st.ique).1 [] (passAgo cfg env st.sc st.ique).2 st.oque).1.irqnum * cfg.blksize
    rw [b7, b6]
    exact a1 hsk

theorem initSt_inv (cfg : Config) : Inv cfg (initSt cfg) := by
  have hw0 : WInv cfg scal0 :=
    ⟨rfl, fun _ => rfl, fun _ e he => absurd he (by simp [scal0]),
     rfl, fun _ => trivial, fun _ e he => absurd he (by simp [scal0])⟩
  refine ⟨?_, ?_, hw0, ?_, ?_, ?_⟩
  · show (0 : Int) = cnf (List.replicate cfg.imaxqsize slot0)
    rw [cnf_replicate]
  · show (0 : Int) = cnf (List.replicate cfg.omaxqsize slot0)
    rw [cnf_replicate]
  · intro s hs
    rw [List.eq_of_mem_replicate hs]
    exact ⟨fun _ hne => absurd rfl hne, fun _ hst => absurd hst (by decide)⟩
  · intro _
    show (0 : Nat) = 0 * cfg.blksize
    simp
  · intro s hs
    rw [List.eq_of_mem_replicate hs]
    decide

theorem runSt_inv (cfg : Config) (env : Nat → Probe) (f : Nat) :
    Inv cfg (runSt cfg env f) := by
  induction f with
  | zero => exact initSt_inv cfg
  | succ k ih =>
    simp only [runSt]
    split
    · exact ih
    · exact iter_inv cfg env _ ih

/-! ### Remaining helper lemmas for the claim theorems -/

theorem offsRun_chain (l : List WriteReq) :
    ∀ acc, offsRun acc l → (∀ e ∈ l, 0 < e.nbytes) →
    List.Chain' (fun a b => a.offset < b.offset ∧
      b.offset = a.offset + a.nbytes) l := by
  induction l with
  | nil => intro acc _ _; exact List.chain'_nil
  | cons a t ih =>
    intro acc h hp
    obtain ⟨h1, h2⟩ := h
    cases t with
    | nil => simp
    | cons b u =>
      obtain ⟨hb1, hb2⟩ := h2
      rw [List.chain'_cons]
      refine ⟨⟨?_, ?_⟩, ?_⟩
      · rw [h1, hb1]
        have := hp a (List.mem_cons_self a (b :: u))
        omega
      · rw [h1, hb1]
      · exact ih (acc + a.nbytes) ⟨hb1, hb2⟩
          (fun e he => hp e (List.mem_cons_of_mem a he))

theorem runP_success (cfg : Config) (env : Nat → Probe) :
    ∀ (f : Nat) (st : St) (code : Nat) (st' : St),
      runP cfg env f st = some (code, st') →
      st'.sc.aborted = false → code = 0 := by
  intro f
  induction f with
  | zero =>
    intro st code st' h
    simp [runP] at h
  | succ k ih =>
    intro st code st' h hab
    simp only [runP] at h
    by_cases h1 : (iter cfg env st).sc.aborted = true
    · rw [if_pos h1] at h
      simp only [Option.some.injEq, Prod.mk.injEq] at h
      rw [← h.2, h1] at hab
      simp at hab
    · rw [if_neg h1] at h
      by_cases h2 : exitCond (iter cfg env st).sc = true
      · rw [if_pos h2] at h
        simp only [Option.some.injEq, Prod.mk.injEq] at h
        exact h.1.symm
      · rw [if_neg h2] at h
        exact ih _ code st' h hab

theorem writeLog_head_offset (cfg : Config) (env : Nat → Probe) (f : Nat)
    (ho : cfg.oseekable = false) :
    ∀ e, (runSt cfg env f).sc.writeLog.head? = some e → e.offset = 0 := by
  obtain ⟨w1, w2, w3, w4, w5, w6⟩ := (runSt_inv cfg env f).w
  intro e he
  cases hsk : cfg.iseekable with
  | false =>
    have hrun := w5 hsk
    cases hl : (runSt cfg env f).sc.writeLog with
    | nil => rw [hl] at he; simp at he
    | cons a t =>
      rw [hl] at he hrun
      simp only [List.head?_cons, Option.some.injEq] at he
      rw [← he]
      exact hrun.1
  | true =>
    have hg := w2 ho
    cases hl : (runSt cfg env f).sc.writeLog with
    | nil => rw [hl] at he; simp at he
    | cons a t =>
      rw [hl] at he hg
      simp only [List.head?_cons, Option.some.injEq] at he
      have h4 : a.srcSeq :: t.map WriteReq.srcSeq =
          1 :: List.range' 2 t.length := hg
      have h5 : a.srcSeq = 1 := by
        injection h4
      have h6 := w3 hsk a (by rw [hl]; exact List.mem_cons_self a t)
      rw [← he, h6, h5]
      simp

/-! ### The claims -/

/-- C1: for every run with a non-seekable output, writes are submitted in
strictly increasing source-read sequence with no gaps — the source read
sequence numbers of the submitted writes, in submission order, are exactly
`1, 2, ..., orqnum`, so the destination stream is the concatenation of the
completed reads in read-sequence order.  Enforced by the gate at
aioblkcopy.c line 838, which admits a `Ready` input slot only when its
`rqnum` equals `orqnum + 1`. -/
theorem c1_nonseekable_write_order (cfg : Config) (env : Nat → Probe)
    (f : Nat) (ho : cfg.oseekable = false) :
    (runSt cfg env f).sc.writeLog.map WriteReq.srcSeq =
      List.range' 1 (runSt cfg env f).sc.writeLog.length :=
  (runSt_inv cfg env f).w.2.1 ho

theorem c1_witness :
    cfgN.oseekable = false ∧
    (runSt cfgN envD 4).sc.writeLog.map WriteReq.srcSeq =
      List.range' 1 (runSt cfgN envD 4).sc.writeLog.length :=
  ⟨rfl, c1_nonseekable_write_order cfgN envD 4 rfl⟩

/-- C2 counterexample: a run with a non-seekable output (and non-seekable
input) whose second write carries offset 512, not 0: the claim "every write
submitted against a non-seekable output carries zero file offset" is false.
The code (aioblkcopy.c lines 846-847) selects the offset by *input*
seekability, never forcing zero. -/
theorem c2_counterexample :
    cfgO.oseekable = false ∧
    (runSt cfgO envD 4).sc.writeLog.map WriteReq.offset = [0, 512] ∧
    ¬(∀ e ∈ (runSt cfgO envD 4).sc.writeLog, e.offset = 0) := by
  refine ⟨rfl, by decide, ?_⟩
  intro hall
  have := hall ⟨2, 512, 512⟩ (by decide)
  simp at this

/-- C2 amended: for every run with a non-seekable output, each write
carries the offset computed from the *input* side — the matched input's
read offset `(srcSeq - 1) · blksize` when the input is seekable, or the
running output byte total when it is not — so only the *first* write is
guaranteed to carry offset zero. -/
theorem c2_nonseekable_offsets (cfg : Config) (env : Nat → Probe) (f : Nat)
    (ho : cfg.oseekable = false) :
    (cfg.iseekable = true → ∀ e ∈ (runSt cfg env f).sc.writeLog,
      e.offset = (e.srcSeq - 1) * cfg.blksize) ∧
    (cfg.iseekable = false → offsRun 0 (runSt cfg env f).sc.writeLog) ∧
    (∀ e, (runSt cfg env f).sc.writeLog.head? = some e → e.offset = 0) := by
  obtain ⟨w1, w2, w3, w4, w5, w6⟩ := (runSt_inv cfg env f).w
  exact ⟨w3, w5, writeLog_head_offset cfg env f ho⟩

theorem c2_witness :
    cfgO.oseekable = false ∧ cfgO.iseekable = false ∧
    offsRun 0 (runSt cfgO envD 4).sc.writeLog :=
  ⟨rfl, rfl, (c2_nonseekable_offsets cfgO envD 4 rfl).2.1 rfl⟩

/-- C3 counterexample: with both sides seekable and two slots per queue,
the read of sequence 2 (offset 512) completes before the read of sequence 1
(offset 0); the writes are submitted as offset 512 then offset 0 — the
submission-order offsets of writes against a seekable output are *not*
strictly increasing. -/
theorem c3_counterexample :
    cfgS.oseekable = true ∧
    (runSt cfgS envS 3).sc.writeLog = [⟨2, 512, 512⟩, ⟨1, 0, 512⟩] ∧
    ¬ List.Chain' (fun a b => a.offset < b.offset)
      (runSt cfgS envS 3).sc.writeLog := by
  refine ⟨rfl, by decide, ?_⟩
  intro hch
  rw [(by decide :
    (runSt cfgS envS 3).sc.writeLog = [⟨2, 512, 512⟩, ⟨1, 0, 512⟩])] at hch
  rcases List.chain'_cons.mp hch with ⟨h, _⟩
  exact absurd h (by decide)

/-- C3 amended: for every run with a seekable output, each submitted write
carries the matched read's offset `(srcSeq - 1) · blksize` when the input
is seekable (so offsets are increasing in *read-sequence* order but not
necessarily in submission order); when the input is non-seekable the
submission-order offsets are strictly increasing, each exceeding the
previous by the previous matched input's `filled` (= `nbytes`) count. -/
theorem c3_seekable_offsets (cfg : Config) (env : Nat → Probe) (f : Nat)
    (hb : 0 < cfg.blksize) (ho : cfg.oseekable = true) :
    (cfg.iseekable = true → ∀ e ∈ (runSt cfg env f).sc.writeLog,
      e.offset = (e.srcSeq - 1) * cfg.blksize) ∧
    (cfg.iseekable = false →
      List.Chain' (fun a b => a.offset < b.offset ∧
        b.offset = a.offset + a.nbytes) (runSt cfg env f).sc.writeLog) := by
  obtain ⟨w1, w2, w3, w4, w5, w6⟩ := (runSt_inv cfg env f).w
  exact ⟨w3, fun hsk => offsRun_chain _ 0 (w5 hsk) (w6 hb)⟩

theorem c3_witness :
    0 < cfgS.blksize ∧ cfgS.oseekable = true ∧
    (∀ e ∈ (runSt cfgS envS 3).sc.writeLog,
      e.offset = (e.srcSeq - 1) * cfgS.blksize) :=
  ⟨by decide, rfl, (c3_seekable_offsets cfgS envS 3 (by decide) rfl).1 rfl⟩

/-- C4: an `InProgress` input slot whose completion reports
`0 < n < blksize - filled` bytes stays `InProgress` with `filled := filled + n`,
resubmits a read of exactly `blksize - filled` remaining bytes (with the
updated `filled`) at `offset + filled` when the input is seekable or at 0
when it is not, does not latch `eof`, is not released, and is never treated
as an error (aioblkcopy.c lines 600-641). -/
theorem c4_short_read_resubmit (cfg : Config) (s : Slot) (n : Nat)
    (hstat : s.status = .inprogress) (hn : 0 < n)
    (hlt : s.readyb + n < cfg.blksize) :
    (handleInProbe cfg s (.done n)).slot.status = .inprogress ∧
    (handleInProbe cfg s (.done n)).slot.readyb = s.readyb + n ∧
    (handleInProbe cfg s (.done n)).resub =
      some (if cfg.iseekable then s.fdoffset + (s.readyb + n) else 0,
            cfg.blksize - (s.readyb + n)) ∧
    (handleInProbe cfg s (.done n)).eofSet = false ∧
    (handleInProbe cfg s (.done n)).dec = false ∧
    (handleInProbe cfg s (.done n)).abort = false := by
  have h0 : ¬(n = 0) := by omega
  have hne : s.readyb + n ≠ cfg.blksize := by omega
  simp only [handleInProbe, if_neg h0, if_pos hne]
  refine ⟨hstat, ?_, ?_, ?_, ?_, ?_⟩ <;> trivial

theorem c4_witness :
    sW.status = .inprogress ∧ 0 < 50 ∧ sW.readyb + 50 < cfgS.blksize ∧
    (handleInProbe cfgS sW (.done 50)).slot.status = .inprogress ∧
    (handleInProbe cfgS sW (.done 50)).resub =
      some (if cfgS.iseekable then sW.fdoffset + (sW.readyb + 50) else 0,
            cfgS.blksize - (sW.readyb + 50)) :=
  ⟨rfl, by decide, by decide,
   (c4_short_read_resubmit cfgS sW 50 rfl (by decide) (by decide)).1,
   (c4_short_read_resubmit cfgS sW 50 rfl (by decide) (by decide)).2.2.1⟩

/-- C5: an `InProgress` input slot whose completion reports 0 bytes latches
the global `eof` flag (and never aborts); the slot becomes `Ready` keeping
its buffer when `filled ≠ 0`, and otherwise becomes `Free` with its buffer
released (aioblkcopy.c lines 577-597 and 677-683). -/
theorem c5_read_eof (cfg : Config) (s : Slot)
    (hstat : s.status = .inprogress) :
    (handleInProbe cfg s (.done 0)).eofSet = true ∧
    (handleInProbe cfg s (.done 0)).abort = false ∧
    (s.readyb ≠ 0 →
      (handleInProbe cfg s (.done 0)).slot.status = .ready ∧
      (handleInProbe cfg s (.done 0)).slot.buffer = s.buffer ∧
      (handleInProbe cfg s (.done 0)).dec = false) ∧
    (s.readyb = 0 →
      (handleInProbe cfg s (.done 0)).slot.status = .free ∧
      (handleInProbe cfg s (.done 0)).slot.buffer = none ∧
      (handleInProbe cfg s (.done 0)).dec = true) := by
  by_cases hr : s.readyb ≠ 0
  · simp only [handleInProbe, if_pos rfl, if_pos hr]
    exact ⟨rfl, rfl, fun _ => ⟨rfl, rfl, rfl⟩, fun h => absurd h hr⟩
  · simp only [handleInProbe, if_pos rfl, if_neg hr]
    exact ⟨rfl, rfl, fun h => absurd h hr, fun _ => ⟨rfl, rfl, rfl⟩⟩

theorem c5_witness :
    sW.status = .inprogress ∧ sW.readyb ≠ 0 ∧
    (handleInProbe cfgS sW (.done 0)).eofSet = true ∧
    (handleInProbe cfgS sW (.done 0)).slot.status = .ready :=
  ⟨rfl, by decide, (c5_read_eof cfgS sW rfl).1,
   ((c5_read_eof cfgS sW rfl).2.2.1 (by decide)).1⟩

/-- C6: an `InProgress` output slot whose completion probe reports `EFBIG`
(destination full) latches the global `eof` flag, is released to `Free`
with its buffer freed, and does not abort the process (aioblkcopy.c lines
789-815); and every run whose main loop finishes without `CUSTOMERROR`
returns `EXIT_SUCCESS` (line 958). -/
theorem c6_destination_full (s : Slot) (hstat : s.status = .inprogress) :
    (handleOutProbe s .efbig).eofSet = true ∧
    (handleOutProbe s .efbig).slot.status = .free ∧
    (handleOutProbe s .efbig).slot.buffer = none ∧
    (handleOutProbe s .efbig).dec = true ∧
    (handleOutProbe s .efbig).abort = false ∧
    (∀ (cfg : Config) (env : Nat → Probe) (f : Nat),
      abortedOf cfg env f = some false → exitCodeOf cfg env f = some 0) := by
  refine ⟨rfl, rfl, rfl, rfl, rfl, ?_⟩
  intro cfg env f
  unfold abortedOf exitCodeOf
  cases hr : runP cfg env f (initSt cfg) with
  | none => simp
  | some r =>
    simp only [Option.map_some', Option.some.injEq]
    intro hab
    exact runP_success cfg env f (initSt cfg) r.1 r.2 (by rw [hr]) hab

theorem c6_witness :
    sW.status = .inprogress ∧
    (handleOutProbe sW .efbig).eofSet = true ∧
    (handleOutProbe sW .efbig).slot.status = .free ∧
    abortedOf cfgN envE 4 = some false ∧
    exitCodeOf cfgN envE 4 = some 0 :=
  ⟨rfl, (c6_destination_full sW rfl).1, (c6_destination_full sW rfl).2.1,
   by decide,
   (c6_destination_full sW rfl).2.2.2.2.2 cfgN envE 4 (by decide)⟩

/-- C7: in every reachable state of the scheduler loop, the `iqsize` and
`oqsize` counters equal the number of input (resp. output) slots whose
status is not `Free`, and the loop-exit test
`(iqsize == 0) && (oqsize == 0) && (eof == 1)` at aioblkcopy.c line 904
holds exactly when every slot of both queues is `Free` and `eof` is set. -/
theorem c7_exit_condition (cfg : Config) (env : Nat → Probe) (f : Nat) :
    (runSt cfg env f).sc.iqsize = cnf (runSt cfg env f).ique ∧
    (runSt cfg env f).sc.oqsize = cnf (runSt cfg env f).oque ∧
    (exitCond (runSt cfg env f).sc = true ↔
      ((∀ s ∈ (runSt cfg env f).ique, s.status = .free) ∧
       (∀ s ∈ (runSt cfg env f).oque, s.status = .free) ∧
       (runSt cfg env f).sc.eof = true)) := by
  obtain ⟨hiq, hoq, _, _, _, _⟩ := runSt_inv cfg env f
  refine ⟨hiq, hoq, ?_⟩
  unfold exitCond
  rw [Bool.and_eq_true, Bool.and_eq_true]
  constructor
  · rintro ⟨⟨h1, h2⟩, h3⟩
    rw [beq_iff_eq] at h1 h2
    refine ⟨(cnf_eq_zero _).mp (by rw [← hiq]; exact h1),
            (cnf_eq_zero _).mp (by rw [← hoq]; exact h2), h3⟩
  · rintro ⟨h1, h2, h3⟩
    refine ⟨⟨?_, ?_⟩, h3⟩
    · rw [beq_iff_eq, hiq]
      exact (cnf_eq_zero _).mpr h1
    · rw [beq_iff_eq, hoq]
      exact (cnf_eq_zero _).mpr h2

/-- C8 counterexample: the block-size argument `0` (no suffix) is accepted
by the validation (it is a multiple of 512 and not above 16 MiB), yet
0 ∉ [512, 16·2²⁰]: the code enforces no lower bound. -/
theorem c8_counterexample :
    parseBlk 0 [] = .ok 0 ∧ ¬(512 ≤ 0) :=
  ⟨rfl, by decide⟩

/-- C8 amended: a block-size argument is accepted exactly when its
suffix-scaled value is a multiple of 512 and at most 16·2²⁰ — zero
included, no lower bound is enforced; every rejected argument exits with
the usage code `EXIT_USAGE` = 1 before any I/O. -/
theorem c8_blk_accept (tint : Nat) (suffix : List Char) :
    (∀ v, parseBlk tint suffix = .ok v ↔
      (applySuffix tint suffix = some v ∧ v % 512 = 0 ∧
       v ≤ 1024 * 1024 * 16)) ∧
    (parseBlk tint suffix = .error EXIT_USAGE ∨
      ∃ v, parseBlk tint suffix = .ok v) := by
  constructor
  · intro v
    cases ha : applySuffix tint suffix with
    | none => simp [parseBlk, ha]
    | some t =>
      by_cases h1 : t % 512 ≠ 0
      · simp only [parseBlk, ha, if_pos h1]
        constructor
        · intro hx
          exact absurd hx (by simp)
        · rintro ⟨hv, h3, _⟩
          have hv2 : t = v := by simpa using hv
          rw [← hv2] at h3
          exact absurd h3 h1
      · by_cases h2 : t > 1024 * 1024 * 16
        · simp only [parseBlk, ha, if_neg h1, if_pos h2]
          constructor
          · intro hx
            exact absurd hx (by simp)
          · rintro ⟨hv, _, h4⟩
            have hv2 : t = v := by simpa using hv
            exfalso
            omega
        · simp only [parseBlk, ha, if_neg h1, if_neg h2]
          simp only [ne_eq, not_not] at h1
          constructor
          · intro hx
            have hx2 : t = v := by
              simpa using hx
            subst hx2
            exact ⟨rfl, h1, by omega⟩
          · rintro ⟨hv, _, _⟩
            have hv2 : t = v := by simpa using hv
            rw [hv2]
  · cases ha : applySuffix tint suffix with
    | none =>
      left
      simp only [parseBlk, ha]
    | some t =>
      by_cases h1 : t % 512 ≠ 0
      · left
        simp only [parseBlk, ha, if_pos h1]
      · by_cases h2 : t > 1024 * 1024 * 16
        · left
          simp only [parseBlk, ha, if_neg h1, if_pos h2]
        · right
          exact ⟨t, by simp only [parseBlk, ha, if_neg h1, if_neg h2]⟩

theorem c8_witness :
    parseBlk 1024 [] = .ok 1024 ∧ parseBlk 775 [] = .error EXIT_USAGE ∧
    parseBlk 1 ['M'] = .ok (1024 * 1024) :=
  ⟨((c8_blk_accept 1024 []).1 1024).mpr ⟨rfl, by decide, by decide⟩,
   rfl,
   ((c8_blk_accept 1 ['M']).1 (1024 * 1024)).mpr
     ⟨by decide, by decide, by decide⟩⟩

/-- C9 counterexample: a concrete handoff of a `Ready` input slot holding
buffer 7 to a `Free` output slot: afterwards the output slot holds buffer 7
and the input slot is `Free`, but the input slot's own `buffer` field still
holds buffer 7 — it is *not* set to null in that step (only
`aiodata->aio_buf` is, aioblkcopy.c line 871; `ique[j].buffer` is never
cleared there). -/
theorem c9_counterexample :
    sjW.status = .ready ∧ slot0.status = .free ∧
    (doMatch cfgS scal0 slot0 sjW).2.1.buffer = some 7 ∧
    (doMatch cfgS scal0 slot0 sjW).2.2.status = .free ∧
    (doMatch cfgS scal0 slot0 sjW).2.2.buffer = some 7 ∧
    (doMatch cfgS scal0 slot0 sjW).2.2.buffer ≠ none := by
  decide

/-- C9 amended: the handoff is a point-in-time move of the buffer into the
output slot: in the same step the output slot's buffer pointer becomes the
input slot's former buffer, the input slot becomes `Free`, and the input
slot's aio control block's buffer pointer (`aiodata->aio_buf`) is nulled —
but the input slot's own `buffer` field retains the stale pointer (it is
only overwritten at the slot's next allocation). -/
theorem c9_handoff_move (cfg : Config) (sc : Scal) (so sj : Slot)
    (hr : sj.status = .ready) (hf : so.status = .free) :
    (doMatch cfg sc so sj).2.1.status = .inprogress ∧
    (doMatch cfg sc so sj).2.1.buffer = sj.buffer ∧
    (doMatch cfg sc so sj).2.1.aioBuf = sj.buffer ∧
    (doMatch cfg sc so sj).2.2.status = .free ∧
    (doMatch cfg sc so sj).2.2.aioBuf = none ∧
    (doMatch cfg sc so sj).2.2.buffer = sj.buffer :=
  ⟨rfl, rfl, rfl, rfl, rfl, rfl⟩

theorem c9_witness :
    sjW.status = .ready ∧ slot0.status = .free ∧
    (doMatch cfgS scal0 slot0 sjW).2.1.buffer = sjW.buffer ∧
    (doMatch cfgS scal0 slot0 sjW).2.2.buffer = sjW.buffer :=
  ⟨rfl, rfl, (c9_handoff_move cfgS scal0 slot0 sjW rfl rfl).2.1,
   (c9_handoff_move cfgS scal0 slot0 sjW rfl rfl).2.2.2.2.2⟩

/-- C10: the startup classification evaluated at the failing inputs.  An
*existing* output is classified from its own file kind (fourth conjunct),
but an output path that does not exist (`stat` fails with `ENOENT`,
aioblkcopy.c line 386) is classified from the stale stat buffer left by
the *input* side: seekable when the input was a regular file, non-seekable
when the input was a FIFO, and indeterminate (uninitialised memory) when
the input was standard input — contradicting the claim that the
classification depends only on the output path. -/
theorem c10_output_classification :
    classify (some .regular) (some (some .fifo)) = (true, some false) ∧
    classify (some .regular) (some none) = (true, some true) ∧
    classify (some .fifo) (some none) = (false, some false) ∧
    classify none (some none) = (false, none) := by
  decide

end Aioblkcopy
